import Mathlib

/-!
Formal model of the WaykNow protocol core (wayk-now-rs): wire headers,
the packet accumulator, the status word, the enum-with-fallback codec
pattern, the cursor peek functions, the channels manager and the sharee
coordinator.  Rust machine integers are modelled as `Nat` with explicit
`% 2^w` where wrap-around matters; fallible operations return `Except`;
byte buffers are `List Nat`.
-/

deriving instance DecidableEq for Except

namespace WaykNow

/-! ## Message types (src/wayk_proto/src/message/mod.rs, `MessageType`)

The `#[derive(Encode, Decode)]` on an enum with `#[value = ...]` variants
and a `#[fallback]` variant generates (src/wayk_proto_derive/src/lib.rs):
`From<u8> for MessageType` matching each listed value and falling back to
`Other(v)`, and `From<MessageType> for u8` mapping each variant to its
value and `Other(inner)` to `inner`. -/

inductive MessageType where
  | status
  | handshake
  | negotiate
  | authenticate
  | associate
  | capabilities
  | channel
  | activate
  | terminate
  | surface
  | update
  | input
  | mouse
  | network
  | access
  | desktop
  | system
  | session
  | sharing
  | other (raw : Nat)
deriving DecidableEq, Repr

/-- Decoding side generated by the derive macro: the match over the
declared `#[value = ...]` literals with the `Other` fallback arm. -/
def MessageType.fromU8 (v : Nat) : MessageType :=
  match v with
  | 0x00 => .status
  | 0x01 => .handshake
  | 0x02 => .negotiate
  | 0x03 => .authenticate
  | 0x04 => .associate
  | 0x05 => .capabilities
  | 0x06 => .channel
  | 0x07 => .activate
  | 0x08 => .terminate
  | 0x41 => .surface
  | 0x42 => .update
  | 0x43 => .input
  | 0x44 => .mouse
  | 0x45 => .network
  | 0x46 => .access
  | 0x47 => .desktop
  | 0x48 => .system
  | 0x49 => .session
  | 0x50 => .sharing
  | v => .other v

/-- Encoding side generated by the derive macro: each variant to its
declared value, the fallback variant to its payload. -/
def MessageType.toU8 : MessageType → Nat
  | .status => 0x00
  | .handshake => 0x01
  | .negotiate => 0x02
  | .authenticate => 0x03
  | .associate => 0x04
  | .capabilities => 0x05
  | .channel => 0x06
  | .activate => 0x07
  | .terminate => 0x08
  | .surface => 0x41
  | .update => 0x42
  | .input => 0x43
  | .mouse => 0x44
  | .network => 0x45
  | .access => 0x46
  | .desktop => 0x47
  | .system => 0x48
  | .session => 0x49
  | .sharing => 0x50
  | .other raw => raw

/-- Values carried by the named (non-fallback) variants of `MessageType`. -/
def MessageType.knownValues : List Nat :=
  [0x00, 0x01, 0x02, 0x03, 0x04, 0x05, 0x06, 0x07, 0x08,
   0x41, 0x42, 0x43, 0x44, 0x45, 0x46, 0x47, 0x48, 0x49, 0x50]

/-- Decode of a `MessageType` from a byte buffer: `u8::decode_from` then
the generated `From<u8>` conversion (never fails on a nonempty buffer). -/
def MessageType.decodeBytes (bytes : List Nat) : Except Unit MessageType :=
  match bytes with
  | b :: _ => .ok (MessageType.fromU8 b)
  | [] => .error ()

/-- Encode of a `MessageType`: the single byte of its `u8` repr. -/
def MessageType.encodeBytes (t : MessageType) : List Nat :=
  [t.toU8]

/-! ## Body type and headers (src/wayk_proto/src/header.rs) -/

inductive BodyType where
  | message (t : MessageType)
  | virtualChannel (id : Nat)
deriving DecidableEq, Repr

/-- Constant `HEADER_VIRTUAL_CHANNEL_FLAG: u8 = 0x01`. -/
def HEADER_VIRTUAL_CHANNEL_FLAG : Nat := 0x01

structure NowShortHeader where
  body_len : Nat
  body_type : BodyType
  flags : Nat
deriving DecidableEq, Repr

structure NowLongHeader where
  body_len : Nat
  flags : Nat
  body_type : BodyType
deriving DecidableEq, Repr

inductive NowHeader where
  | short (h : NowShortHeader)
  | long (h : NowLongHeader)
deriving DecidableEq, Repr

def NowShortHeader.SIZE : Nat := 4

def NowLongHeader.SIZE : Nat := 6

/-- Model of `NowShortHeader::new`: raw flags get the short bit `0x80`,
plus the virtual-channel bit when the body type is a virtual channel.
The `body_len` parameter is the Rust `u16` argument. -/
def NowShortHeader.new (body_type : BodyType) (body_len : Nat) : NowShortHeader :=
  let flags := 0x80 |||
    (match body_type with
     | .virtualChannel _ => HEADER_VIRTUAL_CHANNEL_FLAG
     | _ => 0x00)
  { flags := flags, body_type := body_type, body_len := body_len }

/-- Model of `NowLongHeader::new`: the source stores
`body_size & 0b0111_1111_1111_1111u32` (a fifteen-bit mask, `0x7FFF`)
with the comment "unset short bit flag". -/
def NowLongHeader.new (body_type : BodyType) (body_size : Nat) : NowLongHeader :=
  { body_len := body_size &&& 0x7FFF
    flags :=
      match body_type with
      | .virtualChannel _ => HEADER_VIRTUAL_CHANNEL_FLAG
      | _ => 0x00
    body_type := body_type }

/-- Model of `NowHeader::new`: Long when `body_len > u16::MAX`, else Short
with `body_len as u16` (the truncating cast is the `% 65536`). -/
def NowHeader.new (body_type : BodyType) (body_len : Nat) : NowHeader :=
  if body_len > 65535 then
    .long (NowLongHeader.new body_type body_len)
  else
    .short (NowShortHeader.new body_type (body_len % 65536))

def NowShortHeader.len (_ : NowShortHeader) : Nat := NowShortHeader.SIZE

def NowLongHeader.len (_ : NowLongHeader) : Nat := NowLongHeader.SIZE

def NowShortHeader.packet_len (h : NowShortHeader) : Nat :=
  h.body_len + NowShortHeader.SIZE

def NowLongHeader.packet_len (h : NowLongHeader) : Nat :=
  h.body_len + NowLongHeader.SIZE

def NowHeader.len : NowHeader → Nat
  | .short h => h.len
  | .long h => h.len

def NowHeader.body_len : NowHeader → Nat
  | .short h => h.body_len
  | .long h => h.body_len

def NowHeader.body_type : NowHeader → BodyType
  | .short h => h.body_type
  | .long h => h.body_type

def NowHeader.packet_len : NowHeader → Nat
  | .short h => h.packet_len
  | .long h => h.packet_len

def NowHeader.is_short : NowHeader → Bool
  | .short _ => true
  | .long _ => false

/-- Little-endian `u16` from two bytes. -/
def u16le (b0 b1 : Nat) : Nat := b0 + b1 * 256

/-- Little-endian `u32` from four bytes. -/
def u32le (b0 b1 b2 b3 : Nat) : Nat :=
  b0 + b1 * 256 + b2 * 65536 + b3 * 16777216

/-- Model of `NowShortHeader::decode_from` applied to the four header
bytes: `u16` body length, raw body type byte, flags byte; the
virtual-channel flag selects the body-type interpretation.  Total, since
`MessageType` decoding has the `Other` fallback. -/
def NowShortHeader.decode_from (b0 b1 b2 b3 : Nat) : NowShortHeader :=
  { body_len := u16le b0 b1
    body_type :=
      if b3 &&& HEADER_VIRTUAL_CHANNEL_FLAG ≠ 0 then
        .virtualChannel b2
      else
        .message (MessageType.fromU8 b2)
    flags := b3 }

/-- Model of `NowLongHeader::decode_from` applied to the six header
bytes: `u32` body length, flags byte, body type byte. -/
def NowLongHeader.decode_from (b0 b1 b2 b3 b4 b5 : Nat) : NowLongHeader :=
  { body_len := u32le b0 b1 b2 b3
    flags := b4
    body_type :=
      if b4 &&& HEADER_VIRTUAL_CHANNEL_FLAG ≠ 0 then
        .virtualChannel b5
      else
        .message (MessageType.fromU8 b5) }

/-- Model of `NowHeader::read_from`: read four bytes (error when fewer are
available), test `buffer[3] > 7` (the source's short-header test), and for
the long case read two further bytes (error when unavailable). -/
def NowHeader.read_from (bytes : List Nat) : Except Unit NowHeader :=
  match bytes with
  | b0 :: b1 :: b2 :: b3 :: rest =>
    if b3 > 7 then
      .ok (.short (NowShortHeader.decode_from b0 b1 b2 b3))
    else
      match rest with
      | b4 :: b5 :: _ => .ok (.long (NowLongHeader.decode_from b0 b1 b2 b3 b4 b5))
      | _ => .error ()
  | _ => .error ()

/-! ## Cursor peeks (src/wayk_proto/src/io.rs, `Cursor`)

The peek functions slice `inner.get(pos .. pos + k)` and then convert the
slice to a fixed-size array with `try_into().unwrap()`.  A failed `get`
(slice out of range) yields an `UnexpectedEof` error; a slice whose length
differs from the array width makes the `unwrap` abort the process, which
the model records as `.panicked`. -/

structure Cursor where
  inner : List Nat
  pos : Nat
deriving DecidableEq, Repr

inductive PeekResult where
  | ok (v : Nat)
  | unexpectedEof
  | panicked
deriving DecidableEq, Repr

/-- Model of `Cursor::peek_u16`: the source takes the range
`pos .. pos + 1` (one byte) and converts it into the two-byte array for
`u16::from_le_bytes`; the conversion can never produce a two-byte array
from a one-byte slice. -/
def Cursor.peek_u16 (c : Cursor) : PeekResult :=
  if c.pos + 1 ≤ c.inner.length then
    let range := (c.inner.drop c.pos).take 1
    if range.length = 2 then
      .ok (u16le (range.getD 0 0) (range.getD 1 0))
    else
      .panicked
  else
    .unexpectedEof

/-- Model of `Cursor::peek_u32`: the source takes `pos .. pos + 3` (three
bytes) and converts it into the four-byte array for `u32::from_le_bytes`. -/
def Cursor.peek_u32 (c : Cursor) : PeekResult :=
  if c.pos + 3 ≤ c.inner.length then
    let range := (c.inner.drop c.pos).take 3
    if range.length = 4 then
      .ok (u32le (range.getD 0 0) (range.getD 1 0) (range.getD 2 0) (range.getD 3 0))
    else
      .panicked
  else
    .unexpectedEof

/-- Little-endian `u64` from eight bytes. -/
def u64le (b0 b1 b2 b3 b4 b5 b6 b7 : Nat) : Nat :=
  u32le b0 b1 b2 b3 + u32le b4 b5 b6 b7 * 4294967296

/-- Model of `Cursor::peek_u64`: the source takes `pos .. pos + 7` (seven
bytes) and converts it into the eight-byte array for `u64::from_le_bytes`. -/
def Cursor.peek_u64 (c : Cursor) : PeekResult :=
  if c.pos + 7 ≤ c.inner.length then
    let range := (c.inner.drop c.pos).take 7
    if range.length = 8 then
      .ok (u64le (range.getD 0 0) (range.getD 1 0) (range.getD 2 0) (range.getD 3 0)
            (range.getD 4 0) (range.getD 5 0) (range.getD 6 0) (range.getD 7 0))
    else
      .panicked
  else
    .unexpectedEof

/-- Model of `Cursor::read_u16` (for contrast with `peek_u16`): the range
is `pos .. pos + 2` and the position advances. -/
def Cursor.read_u16 (c : Cursor) : PeekResult :=
  if c.pos + 2 ≤ c.inner.length then
    let range := (c.inner.drop c.pos).take 2
    .ok (u16le (range.getD 0 0) (range.getD 1 0))
  else
    .unexpectedEof

/-! ## Status word (src/wayk_proto/src/message/status.rs) -/

inductive SeverityLevel where
  | info
  | warn
  | error
  | fatal
  | other (raw : Nat)
deriving DecidableEq, Repr

def SeverityLevel.fromU8 (v : Nat) : SeverityLevel :=
  match v with
  | 0x00 => .info
  | 0x01 => .warn
  | 0x02 => .error
  | 0x03 => .fatal
  | v => .other v

def SeverityLevel.toU8 : SeverityLevel → Nat
  | .info => 0x00
  | .warn => 0x01
  | .error => 0x02
  | .fatal => 0x03
  | .other raw => raw

inductive StatusType where
  | none
  | disconnect
  | connect
  | security
  | handshake
  | negotiate
  | auth
  | associate
  | capabilities
  | channel
  | clipboard
  | fileTransfer
  | exec
  | other (raw : Nat)
deriving DecidableEq, Repr

def StatusType.fromU8 (v : Nat) : StatusType :=
  match v with
  | 0x00 => .none
  | 0x01 => .disconnect
  | 0x02 => .connect
  | 0x03 => .security
  | 0x15 => .handshake
  | 0x16 => .negotiate
  | 0x17 => .auth
  | 0x18 => .associate
  | 0x19 => .capabilities
  | 0x1A => .channel
  | 0x81 => .clipboard
  | 0x82 => .fileTransfer
  | 0x83 => .exec
  | v => .other v

def StatusType.toU8 : StatusType → Nat
  | .none => 0x00
  | .disconnect => 0x01
  | .connect => 0x02
  | .security => 0x03
  | .handshake => 0x15
  | .negotiate => 0x16
  | .auth => 0x17
  | .associate => 0x18
  | .capabilities => 0x19
  | .channel => 0x1A
  | .clipboard => 0x81
  | .fileTransfer => 0x82
  | .exec => 0x83
  | .other raw => raw

/-- Builder state (`NowStatusBuilder`); the generic `CodeType` is kept as
its `u16` value. -/
structure NowStatusBuilder where
  severity : SeverityLevel
  status_type : StatusType
  code : Nat
deriving DecidableEq, Repr

/-- Decoded status (`NowStatus`); `repr` is the cached `u32`. -/
structure NowStatus where
  repr : Nat
  severity : SeverityLevel
  status_type : StatusType
  code : Nat
deriving DecidableEq, Repr

/-- Model of `NowStatusBuilder::build`:
`(severity << 30) + (status_type << 16) + code` in `u32` arithmetic. -/
def NowStatusBuilder.build (b : NowStatusBuilder) : NowStatus :=
  let rep := ((b.severity.toU8 <<< 30) + (b.status_type.toU8 <<< 16) + b.code) % 4294967296
  { repr := rep
    severity := b.severity
    status_type := b.status_type
    code := b.code }

/-- Model of `TryFrom<u32> for NowStatus`: the three field extractions,
each guarded by the integer conversion (`u8::try_from` / `u16::try_from`)
of the source. -/
def NowStatus.try_from (rep : Nat) : Except Unit NowStatus :=
  if 256 ≤ rep >>> 30 then .error ()
  else if 256 ≤ (rep &&& 0x00FF0000) >>> 16 then .error ()
  else if 65536 ≤ rep &&& 0x0000FFFF then .error ()
  else
    .ok { repr := rep
          severity := SeverityLevel.fromU8 (rep >>> 30)
          status_type := StatusType.fromU8 ((rep &&& 0x00FF0000) >>> 16)
          code := rep &&& 0x0000FFFF }

/-- Model of `NowStatus::as_u32` (also the value written by `encode_into`). -/
def NowStatus.as_u32 (s : NowStatus) : Nat := s.repr

/-! ## Channel names (src/wayk_proto/src/message/connection_sequence/channel.rs)

`ChannelName` derives `PartialOrd, Ord`: variants compare by declaration
order, two `Unknown` values compare by their strings. -/

inductive ChannelName where
  | unknown (s : String)
  | clipboard
  | fileTransfer
  | exec
  | chat
  | tunnel
deriving DecidableEq, Repr

/-- Declaration index of a `ChannelName` constructor. -/
def ChannelName.idx : ChannelName → Nat
  | .unknown _ => 0
  | .clipboard => 1
  | .fileTransfer => 2
  | .exec => 3
  | .chat => 4
  | .tunnel => 5

/-- The strict order derived by `#[derive(PartialOrd, Ord)]`. -/
def ChannelName.lt : ChannelName → ChannelName → Bool
  | .unknown s1, .unknown s2 => decide (s1 < s2)
  | a, b => decide (a.idx < b.idx)

/-! ## Packets and the accumulator (src/wayk_proto/src/packet.rs)

The concrete grammars of message bodies (`NowMessage::decode_from`) and of
virtual-channel bodies (`NowVirtualChannel::decode_from`) are large
families of record codecs; the accumulator claims depend on them only
through being pure functions of the subtype and the body bytes, so the
development is parameterised over them (`decodeMessage`,
`decodeVirtChannel`).  The virtual-channels context and the surrounding
control flow of `NowPacket::decode_from` and
`NowPacketAccumulator::next_packet` are modelled from the source. -/

/-- Context mapping channel ids to names (`VirtChannelsCtx`), a `BTreeMap`
consulted by key lookup only. -/
def VirtChannelsCtx := List (Nat × ChannelName)

def VirtChannelsCtx.get_channel_by_id (ctx : VirtChannelsCtx) (id : Nat) :
    Option ChannelName :=
  List.lookup id ctx

inductive NowBody (Msg Virt : Type) where
  | message (m : Msg)
  | virtualChannel (v : Virt)
deriving DecidableEq, Repr

structure NowPacket (Msg Virt : Type) where
  header : NowHeader
  body : NowBody Msg Virt
deriving DecidableEq, Repr

/-- Failure cases of `NowPacket::decode_from` and of the header decode in
`next_packet`, kept apart as the source's error kinds keep them apart. -/
inductive PacketError (ε : Type) where
  | header
  | channelNotFound (id : Nat)
  | body (e : ε)
deriving DecidableEq, Repr

section Accumulator

variable {Msg Virt ε : Type}

/-- Model of `NowPacket::decode_from`: dispatch on the header's body type;
virtual-channel bodies need the channel name from the context. -/
def NowPacket.decode_from
    (decodeMessage : MessageType → List Nat → Except ε Msg)
    (decodeVirtChannel : ChannelName → List Nat → Except ε Virt)
    (header : NowHeader) (buffer : List Nat) (ctx : VirtChannelsCtx) :
    Except (PacketError ε) (NowPacket Msg Virt) :=
  match header.body_type with
  | .message msg_type =>
    match decodeMessage msg_type buffer with
    | .ok m => .ok { header := header, body := .message m }
    | .error e => .error (.body e)
  | .virtualChannel id =>
    match ctx.get_channel_by_id id with
    | some channel_name =>
      match decodeVirtChannel channel_name buffer with
      | .ok v => .ok { header := header, body := .virtualChannel v }
      | .error e => .error (.body e)
    | none => .error (.channelNotFound id)

/-- Accumulator state (`NowPacketAccumulator`): a growable buffer and a
read cursor. -/
structure NowPacketAccumulator where
  buffer : List Nat
  cursor : Nat
deriving DecidableEq, Repr

/-- Model of `NowPacketAccumulator::new` / `default`. -/
def NowPacketAccumulator.new : NowPacketAccumulator :=
  { buffer := [], cursor := 0 }

/-- Model of `accumulate`: append the bytes. -/
def NowPacketAccumulator.accumulate (acc : NowPacketAccumulator)
    (bytes : List Nat) : NowPacketAccumulator :=
  { acc with buffer := acc.buffer ++ bytes }

/-- Model of `purge_old_packets`: drain the first `cursor` bytes and reset
the cursor. -/
def NowPacketAccumulator.purge_old_packets (acc : NowPacketAccumulator) :
    NowPacketAccumulator :=
  { buffer := acc.buffer.drop acc.cursor, cursor := 0 }

/-- Model of `next_packet`.  The source first requires
`NowLongHeader::SIZE` (six) bytes past the cursor, decodes a header from
exactly that slice, then requires the whole packet
(`body_len + header len` bytes) before decoding the body and advancing the
cursor.  The mutated accumulator is returned alongside the result. -/
def NowPacketAccumulator.next_packet
    (decodeMessage : MessageType → List Nat → Except ε Msg)
    (decodeVirtChannel : ChannelName → List Nat → Except ε Virt)
    (acc : NowPacketAccumulator) (ctx : VirtChannelsCtx) :
    NowPacketAccumulator × Option (Except (PacketError ε) (NowPacket Msg Virt)) :=
  if acc.buffer.length < acc.cursor + NowLongHeader.SIZE then
    (acc, none)
  else
    match NowHeader.read_from ((acc.buffer.drop acc.cursor).take NowLongHeader.SIZE) with
    | .error _ => (acc, some (.error .header))
    | .ok header =>
      let packet_len := header.body_len + header.len
      if acc.cursor + packet_len ≤ acc.buffer.length then
        ({ acc with cursor := acc.cursor + packet_len },
         some (NowPacket.decode_from decodeMessage decodeVirtChannel header
                ((acc.buffer.drop (acc.cursor + header.len)).take header.body_len) ctx))
      else
        (acc, none)

end Accumulator

/-! ## State-machine events (src/wayk_proto/src/sm/mod.rs)

Event payloads (boxed states, packets, error chains) do not influence any
control flow modelled here except through the constructor, so each variant
keeps at most the data the modelled code inspects. -/

inductive ShareeState where
  | connection
  | active
  | final
deriving DecidableEq, Repr

inductive SMEvent where
  | stateTransition (s : ShareeState)
  | packetToSend
  | dataEvent
  | warn
  | error
  | fatal
deriving DecidableEq, Repr

/-- The `matches!(e, SMEvent::Fatal(_))` test of `h_check_for_fatal`. -/
def SMEvent.isFatal : SMEvent → Bool
  | .fatal => true
  | _ => false

/-! ## Channels manager (src/wayk_proto/src/channels_manager.rs)

The manager stores `BTreeMap<ChannelName, Box<dyn VirtualChannelSM>>`,
modelled as an association list kept sorted in ascending key order by the
`BTreeMap` insertion; iteration over values follows that order.  A trait
object is modelled as a record of its observable behaviour: its channel
name, its `waiting_for_packet` answer, and the events and channel
responses its two update methods push (held fixed across calls, which
suffices for the routing claims). -/

structure VirtualChannelSM where
  get_channel_name : ChannelName
  waiting_for_packet : Bool
  without_events : List SMEvent
  without_responses : List Nat
  with_events : List SMEvent
  with_responses : List Nat
deriving DecidableEq, Repr

/-- Ordered-map insertion into a key-sorted association list, the
`BTreeMap::insert` semantics: position by the order, replacement on an
equal key. -/
def btreeInsert {κ α : Type} [DecidableEq κ] (lt : κ → κ → Bool) :
    List (κ × α) → κ → α → List (κ × α)
  | [], k, v => [(k, v)]
  | (k0, v0) :: t, k, v =>
    if lt k k0 then (k, v) :: (k0, v0) :: t
    else if k = k0 then (k, v) :: t
    else (k0, v0) :: btreeInsert lt t k v

structure ChannelsManager where
  state_machines : List (ChannelName × VirtualChannelSM)
deriving DecidableEq, Repr

def ChannelsManager.new : ChannelsManager :=
  { state_machines := [] }

/-- Model of `add_sm`: insert keyed by the machine's channel name. -/
def ChannelsManager.add_sm (m : ChannelsManager) (sm : VirtualChannelSM) :
    ChannelsManager :=
  { state_machines := btreeInsert ChannelName.lt m.state_machines sm.get_channel_name sm }

/-- A virtual-channel message as the manager sees it: its channel name
(`get_name`) plus an opaque payload tag. -/
structure NowVirtualChannelMsg where
  name : ChannelName
  payload : Nat
deriving DecidableEq, Repr

/-- Model of `update_without_virt_msg`: iterate the map's values (key
order), dispatch to the first machine not waiting for a packet, tagging
its responses with its channel name; warn when every machine waits. -/
def ChannelsManager.update_without_virt_msg (m : ChannelsManager) :
    List SMEvent × List (ChannelName × Nat) :=
  match m.state_machines.find? (fun p => !p.2.waiting_for_packet) with
  | some p =>
    (p.2.without_events, p.2.without_responses.map (fun r => (p.2.get_channel_name, r)))
  | none => ([SMEvent.warn], [])

/-- Model of `update_with_virt_msg`: look the machine up by the message's
channel name; warn when absent. -/
def ChannelsManager.update_with_virt_msg (m : ChannelsManager)
    (chan_msg : NowVirtualChannelMsg) : List SMEvent × List (ChannelName × Nat) :=
  match List.lookup chan_msg.name m.state_machines with
  | some sm => (sm.with_events, sm.with_responses.map (fun r => (sm.get_channel_name, r)))
  | none => ([SMEvent.warn], [])

/-- Model of `ChannelsManager::waiting_for_packet`: false as soon as one
machine is not waiting. -/
def ChannelsManager.waiting_for_packet (m : ChannelsManager) : Bool :=
  m.state_machines.all (fun p => p.2.waiting_for_packet)

/-! ## Sharee (src/wayk_proto/src/sharee.rs)

The connection sequence is a trait object (`ConnectionSM`); it is modelled
by a state type `σ` together with the interface record below, so theorems
quantify over every implementation.  `SMData` keeps the one field the
sharee reads (`channel_defs`); `NowMessage` keeps the one distinction the
sharee makes (`Terminate` versus anything else). -/

structure NowChannelDef where
  flags_value : Nat
  name : ChannelName
deriving DecidableEq, Repr

structure SMData where
  channel_defs : List NowChannelDef
deriving DecidableEq, Repr

inductive NowMessage where
  | terminate
  | otherMessage (tag : Nat)
deriving DecidableEq, Repr

structure ConnectionSMIface (σ : Type) where
  is_terminated : σ → Bool
  waiting_for_packet : σ → Bool
  update_without_message : σ → SMData → σ × SMData × List SMEvent
  update_with_message : σ → SMData → NowMessage → σ × SMData × List SMEvent

structure Sharee (σ : Type) where
  state : ShareeState
  connection_seq : σ
  channels_manager : ChannelsManager
  sm_data : SMData
  channels_ctx : VirtChannelsCtx

section ShareeModel

variable {σ : Type}

/-- Model of `h_transition_state`: set the state and push the transition
event. -/
def Sharee.h_transition_state (s : Sharee σ) (events : List SMEvent)
    (st : ShareeState) : Sharee σ × List SMEvent :=
  ({ s with state := st }, events ++ [SMEvent.stateTransition st])

/-- Model of `h_check_for_fatal`: when any event so far is `Fatal`,
transition to the final state. -/
def Sharee.h_check_for_fatal (s : Sharee σ) (events : List SMEvent) :
    Sharee σ × List SMEvent :=
  if events.any SMEvent.isFatal then
    s.h_transition_state events .final
  else
    (s, events)

/-- Model of `h_go_to_active_state`: transition to active and populate the
channels context from the channel definitions (id is the low byte of the
flags value). -/
def Sharee.h_go_to_active_state (s : Sharee σ) (events : List SMEvent) :
    Sharee σ × List SMEvent :=
  let (s, events) := s.h_transition_state events .active
  let ctx := s.sm_data.channel_defs.foldl
    (fun (ctx : VirtChannelsCtx) def_ =>
      btreeInsert (fun a b => decide (a < b)) ctx (def_.flags_value % 256) def_.name)
    s.channels_ctx
  ({ s with channels_ctx := ctx }, events)

/-- Model of `VirtChannelsCtx::get_id_by_channel`: scan the entries for
the first with the given name. -/
def VirtChannelsCtx.get_id_by_channel (ctx : VirtChannelsCtx)
    (name : ChannelName) : Option Nat :=
  (ctx.find? (fun pair => pair.2 = name)).map (fun pair => pair.1)

/-- Model of `h_map_channels_manager_result`: wrap each channel response
whose channel id resolves as a packet-to-send event, warn otherwise. -/
def Sharee.h_map_channels_manager_result (s : Sharee σ)
    (events : List SMEvent) (to_send : List (ChannelName × Nat)) : List SMEvent :=
  to_send.foldl
    (fun events pair =>
      match s.channels_ctx.get_id_by_channel pair.1 with
      | some _ => events ++ [SMEvent.packetToSend]
      | none => events ++ [SMEvent.warn])
    events

/-- Model of `Sharee::update_without_body`. -/
def Sharee.update_without_body (iface : ConnectionSMIface σ) (s : Sharee σ) :
    Sharee σ × List SMEvent :=
  match s.state with
  | .connection =>
    let (cs, d, events) := iface.update_without_message s.connection_seq s.sm_data
    let s := { s with connection_seq := cs, sm_data := d }
    let (s, events) :=
      if iface.is_terminated cs then s.h_go_to_active_state events else (s, events)
    s.h_check_for_fatal events
  | .active =>
    let (events, to_send) := s.channels_manager.update_without_virt_msg
    (s, s.h_map_channels_manager_result events to_send)
  | .final =>
    (s, [SMEvent.packetToSend])

/-- Model of `Sharee::update_with_body`. -/
def Sharee.update_with_body (iface : ConnectionSMIface σ) (s : Sharee σ)
    (body : NowBody NowMessage NowVirtualChannelMsg) : Sharee σ × List SMEvent :=
  match body with
  | .message msg =>
    match s.state with
    | .connection =>
      let (cs, d, events) := iface.update_with_message s.connection_seq s.sm_data msg
      let s := { s with connection_seq := cs, sm_data := d }
      let (s, events) :=
        if iface.is_terminated cs then s.h_go_to_active_state events else (s, events)
      s.h_check_for_fatal events
    | .active =>
      match msg with
      | .terminate => s.h_transition_state [] .final
      | _ => (s, [])
    | .final => (s, [SMEvent.error])
  | .virtualChannel chan_msg =>
    match s.state with
    | .connection => (s, [SMEvent.error])
    | .active =>
      let (events, to_send) := s.channels_manager.update_with_virt_msg chan_msg
      (s, s.h_map_channels_manager_result events to_send)
    | .final => (s, [SMEvent.error])

end ShareeModel

/-! ## Draining the accumulator

The spec's chunking law speaks about repeatedly calling `next_packet`
until it returns `None`.  `drainAux` performs that loop with explicit
fuel; `drain` supplies fuel that a later lemma shows is always enough
(each emitted packet advances the cursor by at least a header's worth of
bytes). -/

section Drain

variable {Msg Virt ε : Type}

def drainAux (dm : MessageType → List Nat → Except ε Msg)
    (dv : ChannelName → List Nat → Except ε Virt) (ctx : VirtChannelsCtx) :
    Nat → NowPacketAccumulator →
    List (Except (PacketError ε) (NowPacket Msg Virt)) × NowPacketAccumulator
  | 0, acc => ([], acc)
  | fuel + 1, acc =>
    match acc.next_packet dm dv ctx with
    | (acc1, none) => ([], acc1)
    | (acc1, some r) =>
      let (rest, accF) := drainAux dm dv ctx fuel acc1
      (r :: rest, accF)

/-- Repeated `next_packet` until `None`: the emitted results in order and
the accumulator state afterwards. -/
def drain (dm : MessageType → List Nat → Except ε Msg)
    (dv : ChannelName → List Nat → Except ε Virt) (ctx : VirtChannelsCtx)
    (acc : NowPacketAccumulator) :
    List (Except (PacketError ε) (NowPacket Msg Virt)) × NowPacketAccumulator :=
  drainAux dm dv ctx (acc.buffer.length + 1) acc

/-- Interleave `accumulate` with full drains: feed each chunk, then call
`next_packet` until it returns `None`, collecting every emitted result. -/
def processChunksFrom (dm : MessageType → List Nat → Except ε Msg)
    (dv : ChannelName → List Nat → Except ε Virt) (ctx : VirtChannelsCtx)
    (acc : NowPacketAccumulator) :
    List (List Nat) → List (Except (PacketError ε) (NowPacket Msg Virt))
  | [] => []
  | c :: cs =>
    let acc1 := acc.accumulate c
    let step := drain dm dv ctx acc1
    step.1 ++ processChunksFrom dm dv ctx step.2 cs

end Drain

/-! ## Concrete instances used to evaluate the model on explicit inputs -/

/-- Body decoder keeping the raw body bytes (a concrete instantiation of
the message-decoder parameter). -/
def rawMessageDecoder : MessageType → List Nat → Except Unit (List Nat) :=
  fun _ bytes => .ok bytes

/-- Virtual-channel body decoder keeping the raw body bytes. -/
def rawVirtDecoder : ChannelName → List Nat → Except Unit (List Nat) :=
  fun _ bytes => .ok bytes

/-- A tunnel channel machine, ready to update, answering with payload 2. -/
def tunnelSM : VirtualChannelSM :=
  { get_channel_name := .tunnel
    waiting_for_packet := false
    without_events := []
    without_responses := [2]
    with_events := []
    with_responses := [] }

/-- A clipboard channel machine, ready to update, answering with payload 1. -/
def clipboardSM : VirtualChannelSM :=
  { get_channel_name := .clipboard
    waiting_for_packet := false
    without_events := []
    without_responses := [1]
    with_events := []
    with_responses := [] }

/-- A clipboard channel machine whose updates push a `Fatal` event. -/
def fatalChannelSM : VirtualChannelSM :=
  { get_channel_name := .clipboard
    waiting_for_packet := false
    without_events := [SMEvent.fatal]
    without_responses := []
    with_events := [SMEvent.fatal]
    with_responses := [] }

/-- A connection sequence that never terminates and emits no event. -/
def idleConnectionSM : ConnectionSMIface Unit :=
  { is_terminated := fun _ => false
    waiting_for_packet := fun _ => false
    update_without_message := fun s d => (s, d, [])
    update_with_message := fun s d _ => (s, d, []) }

/-- A connection sequence whose updates push a `Fatal` event. -/
def fatalConnectionSM : ConnectionSMIface Unit :=
  { is_terminated := fun _ => false
    waiting_for_packet := fun _ => false
    update_without_message := fun s d => (s, d, [SMEvent.fatal])
    update_with_message := fun s d _ => (s, d, [SMEvent.fatal]) }

/-- A sharee in the active phase whose only channel machine is
`fatalChannelSM`. -/
def activeShareeWithFatalChannel : Sharee Unit :=
  { state := .active
    connection_seq := ()
    channels_manager := ChannelsManager.new.add_sm fatalChannelSM
    sm_data := { channel_defs := [] }
    channels_ctx := [] }

/-- A sharee still in the connection phase. -/
def connectionSharee : Sharee Unit :=
  { state := .connection
    connection_seq := ()
    channels_manager := ChannelsManager.new
    sm_data := { channel_defs := [] }
    channels_ctx := [] }

/-! ## Claim theorems -/

/-- C1: the claim asserts that `NowHeader::new(body_type, L)` is Short
exactly when `L ≤ 65535` and that a Long header reports `body_len()`
equal to `L` with only bit 31 cleared, so that `L = 65536` yields a Long
header reporting 65536.  The selection half holds, but
`NowLongHeader::new` masks the length with `0x7FFF` (fifteen bits) while
its own comment says "unset short bit flag", so at the failing input
`L = 65536` the Long header reports body length `65536 &&& 0x7FFF = 0`,
not 65536. -/
theorem C1_long_header_mask_failing_input :
    NowHeader.new (BodyType.message .handshake) 65535
      = .short { body_len := 65535, body_type := .message .handshake, flags := 0x80 }
    ∧ NowHeader.new (BodyType.message .handshake) 65536
      = .long { body_len := 0, flags := 0x00, body_type := .message .handshake }
    ∧ (NowHeader.new (BodyType.message .handshake) 65536).body_len = 0 := by
  refine ⟨?_, ?_, ?_⟩ <;> rfl

/-- C3: the claim asserts that `peek_u16`, `peek_u32` and `peek_u64`
return `Ok` with the little-endian value when enough bytes remain and
`UnexpectedEof` otherwise, never panicking.  The source slices one byte
too few (`pos..pos+1`, `pos..pos+3`, `pos..pos+7`) and then unwraps the
conversion into a 2-, 4- or 8-byte array, so each call panics whenever
its (too short) slice is in range: at the failing inputs below the claim
expects `Ok(0x1234)`, `Ok(0x04030201)` and an `Ok` u64. -/
theorem C3_peek_panics_failing_input :
    Cursor.peek_u16 { inner := [0x34, 0x12], pos := 0 } = .panicked
    ∧ Cursor.peek_u32 { inner := [0x01, 0x02, 0x03, 0x04], pos := 0 } = .panicked
    ∧ Cursor.peek_u64 { inner := [1, 2, 3, 4, 5, 6, 7, 8], pos := 0 } = .panicked
    ∧ Cursor.read_u16 { inner := [0x34, 0x12], pos := 0 } = .ok 0x1234 := by
  refine ⟨?_, ?_, ?_, ?_⟩ <;> rfl

/-- C4: the claim asserts the header decoder selects Short exactly when
bit 7 (mask 0x80) of byte 3 is set, so byte-3 value 0x08 decodes as Long.
The source tests `buffer[3] > 7` instead, so the failing input below
(six bytes with byte 3 equal to 0x08, bit 7 clear) decodes as a Short
header. -/
theorem C4_short_bit_test_failing_input :
    NowHeader.read_from [0x00, 0x00, 0x00, 0x08, 0x00, 0x00]
      = .ok (.short { body_len := 0, body_type := .message .status, flags := 0x08 })
    ∧ (NowHeader.read_from [0x00, 0x00, 0x00, 0x08, 0x00, 0x00]).map NowHeader.is_short
      = .ok true := by
  exact ⟨rfl, rfl⟩

set_option maxRecDepth 4096 in
/-- C8: for every raw `u8` value that is not a known `MessageType`
discriminant, decoding yields `Other(raw)` (never a failure), and
encoding `Other(raw)` then decoding yields `Other(raw)` again. -/
theorem C8_enum_fallback_roundtrip (raw : Nat) (hlt : raw < 256)
    (hunk : raw ∉ MessageType.knownValues) :
    MessageType.fromU8 raw = .other raw
    ∧ MessageType.decodeBytes (MessageType.encodeBytes (.other raw)) = .ok (.other raw) := by
  revert hunk
  revert raw
  decide

/-- Witness for C8 at the claim's example `MessageType::Other(0xAB)`. -/
theorem C8_enum_fallback_roundtrip_witness :
    MessageType.fromU8 0xAB = .other 0xAB
    ∧ MessageType.decodeBytes (MessageType.encodeBytes (.other 0xAB)) = .ok (.other 0xAB) :=
  C8_enum_fallback_roundtrip 0xAB (by decide) (by decide)

/-! ### Arithmetic readings of the status-word masks -/

theorem and_ffff_eq_mod (x : Nat) : x &&& 0x0000FFFF = x % 65536 := by
  apply Nat.eq_of_testBit_eq
  intro i
  rw [show (0x0000FFFF : Nat) = 2 ^ 16 - 1 by norm_num,
    show (65536 : Nat) = 2 ^ 16 by norm_num,
    Nat.testBit_and, Nat.testBit_two_pow_sub_one, Nat.testBit_mod_two_pow]
  exact Bool.and_comm _ _

theorem and_ff0000_shift_eq (x : Nat) :
    (x &&& 0x00FF0000) >>> 16 = x / 65536 % 256 := by
  have hmask : (0x00FF0000 : Nat) = (2 ^ 8 - 1) <<< 16 := by
    rw [Nat.shiftLeft_eq]
    norm_num
  have hx : x &&& 0x00FF0000 = ((x >>> 16) % 2 ^ 8) <<< 16 := by
    apply Nat.eq_of_testBit_eq
    intro i
    rw [hmask, Nat.testBit_and, Nat.testBit_shiftLeft, Nat.testBit_shiftLeft,
      Nat.testBit_two_pow_sub_one, Nat.testBit_mod_two_pow, Nat.testBit_shiftRight]
    by_cases h16 : 16 ≤ i
    · have : 16 + (i - 16) = i := by omega
      rw [this]
      simp [h16, Bool.and_comm, Bool.and_left_comm, Bool.and_assoc]
    · simp [h16]
  rw [hx, Nat.shiftLeft_eq, Nat.shiftRight_eq_div_pow, Nat.shiftRight_eq_div_pow]
  have h216 : (0 : Nat) < 2 ^ 16 := by norm_num
  rw [Nat.mul_div_cancel _ h216]
  norm_num

theorem severity_toU8_fromU8 (s : Nat) (h : s < 4) :
    (SeverityLevel.fromU8 s).toU8 = s := by
  interval_cases s <;> rfl

set_option maxRecDepth 4096 in
theorem statusType_toU8_fromU8 (t : Nat) (h : t < 256) :
    (StatusType.fromU8 t).toU8 = t := by
  revert t
  decide

/-- C7: packing severity (bits 30-31), status type (bits 16-23) and code
(bits 0-15) with `NowStatusBuilder::build` re-parses to the same three
fields under `TryFrom<u32>`, for severity ≤ 3, type ≤ 255, code ≤ 65535;
and parsing any `u32` (reserved bits 24-29 included) then re-encoding
(`as_u32`, the cached `repr`) reproduces the exact word. -/
theorem C7_status_word_packing (s t c rep : Nat)
    (hs : s ≤ 3) (ht : t ≤ 255) (hc : c ≤ 65535) (hrep : rep < 4294967296) :
    (NowStatus.try_from
        (NowStatusBuilder.build
          { severity := SeverityLevel.fromU8 s, status_type := StatusType.fromU8 t,
            code := c }).repr
      = .ok { repr := s * 1073741824 + t * 65536 + c
              severity := SeverityLevel.fromU8 s
              status_type := StatusType.fromU8 t
              code := c })
    ∧ (NowStatus.try_from rep).map NowStatus.as_u32 = .ok rep := by
  constructor
  · have hb : (NowStatusBuilder.build
        { severity := SeverityLevel.fromU8 s, status_type := StatusType.fromU8 t,
          code := c }).repr = s * 1073741824 + t * 65536 + c := by
      simp only [NowStatusBuilder.build, severity_toU8_fromU8 s (by omega),
        statusType_toU8_fromU8 t (by omega), Nat.shiftLeft_eq]
      norm_num
      omega
    rw [hb]
    have h30 : (s * 1073741824 + t * 65536 + c) >>> 30 = s := by
      rw [Nat.shiftRight_eq_div_pow]
      norm_num
      omega
    have hmid : ((s * 1073741824 + t * 65536 + c) &&& 0x00FF0000) >>> 16 = t := by
      rw [and_ff0000_shift_eq]
      omega
    have hlow : (s * 1073741824 + t * 65536 + c) &&& 0x0000FFFF = c := by
      rw [and_ffff_eq_mod]
      omega
    rw [NowStatus.try_from, h30, hmid, hlow]
    rw [if_neg (by omega), if_neg (by omega), if_neg (by omega)]
  · have h30 : rep >>> 30 < 256 := by
      rw [Nat.shiftRight_eq_div_pow]
      norm_num
      omega
    have hmid : (rep &&& 0x00FF0000) >>> 16 < 256 := by
      rw [and_ff0000_shift_eq]
      exact Nat.mod_lt _ (by norm_num)
    have hlow : rep &&& 0x0000FFFF < 65536 := by
      rw [and_ffff_eq_mod]
      exact Nat.mod_lt _ (by norm_num)
    rw [NowStatus.try_from,
      if_neg (by omega), if_neg (by omega), if_neg (by omega)]
    rfl

/-- Witness for C7 at the spec's example status word `0x8017FFFF`
(severity Error, type Auth, code Failure). -/
theorem C7_status_word_packing_witness :
    (NowStatus.try_from
        (NowStatusBuilder.build
          { severity := SeverityLevel.fromU8 2, status_type := StatusType.fromU8 0x17,
            code := 0xFFFF }).repr
      = .ok { repr := 2 * 1073741824 + 0x17 * 65536 + 0xFFFF
              severity := SeverityLevel.fromU8 2
              status_type := StatusType.fromU8 0x17
              code := 0xFFFF })
    ∧ (NowStatus.try_from 0x8017FFFF).map NowStatus.as_u32 = .ok 0x8017FFFF :=
  C7_status_word_packing 2 0x17 0xFFFF 0x8017FFFF
    (by norm_num) (by norm_num) (by norm_num) (by norm_num)

/-! ### Accumulator lemmas -/

theorem NowHeader.packet_len_eq (h : NowHeader) :
    h.packet_len = h.body_len + h.len := by
  cases h <;> rfl

theorem NowHeader.four_le_len (h : NowHeader) : 4 ≤ h.len := by
  cases h <;> simp [NowHeader.len, NowShortHeader.len, NowLongHeader.len,
    NowShortHeader.SIZE, NowLongHeader.SIZE]

/-- Totality of the header decoder on six available bytes: the short
branch needs four of them, the long branch all six, and the body-type
decode cannot fail thanks to the `MessageType` fallback. -/
theorem NowHeader.read_from_ok_of_length (bytes : List Nat)
    (h : 6 ≤ bytes.length) : ∃ header, NowHeader.read_from bytes = .ok header := by
  match bytes, h with
  | b0 :: b1 :: b2 :: b3 :: b4 :: b5 :: rest, _ =>
    by_cases hb : b3 > 7
    · exact ⟨.short (NowShortHeader.decode_from b0 b1 b2 b3),
        by simp [NowHeader.read_from, hb]⟩
    · exact ⟨.long (NowLongHeader.decode_from b0 b1 b2 b3 b4 b5),
        by simp [NowHeader.read_from, hb]⟩

section AccumulatorLemmas

variable {Msg Virt ε : Type}
variable (dm : MessageType → List Nat → Except ε Msg)
variable (dv : ChannelName → List Nat → Except ε Virt)
variable (ctx : VirtChannelsCtx)

theorem next_packet_of_short (acc : NowPacketAccumulator)
    (h : acc.buffer.length < acc.cursor + 6) :
    acc.next_packet dm dv ctx = (acc, none) := by
  unfold NowPacketAccumulator.next_packet
  rw [if_pos]
  exact h

theorem next_packet_complete (acc : NowPacketAccumulator) (header : NowHeader)
    (h6 : acc.cursor + 6 ≤ acc.buffer.length)
    (hh : NowHeader.read_from ((acc.buffer.drop acc.cursor).take 6) = .ok header)
    (hc : acc.cursor + (header.body_len + header.len) ≤ acc.buffer.length) :
    acc.next_packet dm dv ctx
      = ({ acc with cursor := acc.cursor + (header.body_len + header.len) },
         some (NowPacket.decode_from dm dv header
           ((acc.buffer.drop (acc.cursor + header.len)).take header.body_len) ctx)) := by
  unfold NowPacketAccumulator.next_packet
  rw [if_neg (by simp [NowLongHeader.SIZE]; omega)]
  simp only [NowLongHeader.SIZE]
  rw [hh]
  simp only []
  rw [if_pos hc]

theorem next_packet_incomplete (acc : NowPacketAccumulator) (header : NowHeader)
    (h6 : acc.cursor + 6 ≤ acc.buffer.length)
    (hh : NowHeader.read_from ((acc.buffer.drop acc.cursor).take 6) = .ok header)
    (hc : acc.buffer.length < acc.cursor + (header.body_len + header.len)) :
    acc.next_packet dm dv ctx = (acc, none) := by
  unfold NowPacketAccumulator.next_packet
  rw [if_neg (by simp [NowLongHeader.SIZE]; omega)]
  simp only [NowLongHeader.SIZE]
  rw [hh]
  simp only []
  rw [if_neg (by omega)]

theorem next_packet_none_fst (acc acc1 : NowPacketAccumulator)
    (h : acc.next_packet dm dv ctx = (acc1, none)) : acc1 = acc := by
  unfold NowPacketAccumulator.next_packet at h
  split at h
  · exact (Prod.mk.injEq .. ▸ h).1.symm
  · split at h
    · simp at h
    · simp only [] at h
      split at h
      · simp at h
      · exact (Prod.mk.injEq .. ▸ h).1.symm

/-- Inversion of a productive `next_packet` call: the guards that held and
the exact result. -/
theorem next_packet_some_inv (acc acc1 : NowPacketAccumulator)
    (r : Except (PacketError ε) (NowPacket Msg Virt))
    (h : acc.next_packet dm dv ctx = (acc1, some r)) :
    ∃ header, NowHeader.read_from ((acc.buffer.drop acc.cursor).take 6) = .ok header
      ∧ acc.cursor + 6 ≤ acc.buffer.length
      ∧ acc.cursor + (header.body_len + header.len) ≤ acc.buffer.length
      ∧ acc1 = { acc with cursor := acc.cursor + (header.body_len + header.len) }
      ∧ r = NowPacket.decode_from dm dv header
          ((acc.buffer.drop (acc.cursor + header.len)).take header.body_len) ctx := by
  unfold NowPacketAccumulator.next_packet at h
  split at h
  · simp at h
  · rename_i hlen
    simp only [NowLongHeader.SIZE] at hlen h
    have hslice : ((acc.buffer.drop acc.cursor).take 6).length = 6 := by
      simp [List.length_take, List.length_drop]
      omega
    obtain ⟨header, hok⟩ := NowHeader.read_from_ok_of_length _ (le_of_eq hslice.symm)
    rw [hok] at h
    simp only [] at h
    split at h
    · rename_i hcomp
      refine ⟨header, hok, by omega, hcomp, ?_, ?_⟩
      · exact ((Prod.mk.injEq .. ▸ h).1).symm
      · have := (Prod.mk.injEq .. ▸ h).2
        exact (Option.some.injEq .. ▸ this).symm
    · simp at h

theorem accumulate_accumulate (acc : NowPacketAccumulator) (e1 e2 : List Nat) :
    (acc.accumulate e1).accumulate e2 = acc.accumulate (e1 ++ e2) := by
  simp [NowPacketAccumulator.accumulate]

theorem accumulate_nil (acc : NowPacketAccumulator) : acc.accumulate [] = acc := by
  simp [NowPacketAccumulator.accumulate]

theorem next_packet_some_spec (acc acc1 : NowPacketAccumulator)
    (r : Except (PacketError ε) (NowPacket Msg Virt))
    (h : acc.next_packet dm dv ctx = (acc1, some r)) :
    acc1.buffer = acc.buffer ∧ acc.cursor + 4 ≤ acc1.cursor
      ∧ acc1.cursor ≤ acc.buffer.length := by
  obtain ⟨header, _, _, hc, hacc1, _⟩ := next_packet_some_inv dm dv ctx acc acc1 r h
  have h4 := header.four_le_len
  subst hacc1
  refine ⟨rfl, ?_, ?_⟩
  · show acc.cursor + 4 ≤ acc.cursor + (header.body_len + header.len)
    omega
  · show acc.cursor + (header.body_len + header.len) ≤ acc.buffer.length
    omega

/-- Locality of a productive `next_packet` under later `accumulate`
calls: bytes appended past the complete packet change neither the
decoded result nor the cursor advance. -/
theorem next_packet_accumulate_of_some (acc acc1 : NowPacketAccumulator)
    (e : List Nat) (r : Except (PacketError ε) (NowPacket Msg Virt))
    (h : acc.next_packet dm dv ctx = (acc1, some r)) :
    (acc.accumulate e).next_packet dm dv ctx = (acc1.accumulate e, some r) := by
  obtain ⟨header, hok, h6, hc, hacc1, hr⟩ := next_packet_some_inv dm dv ctx acc acc1 r h
  have h4 := header.four_le_len
  have hd1 : (acc.buffer ++ e).drop acc.cursor = acc.buffer.drop acc.cursor ++ e :=
    List.drop_append_of_le_length (by omega)
  have ht1 : ((acc.buffer ++ e).drop acc.cursor).take 6
      = (acc.buffer.drop acc.cursor).take 6 := by
    rw [hd1]
    exact List.take_append_of_le_length (by simp [List.length_drop]; omega)
  have hd2 : (acc.buffer ++ e).drop (acc.cursor + header.len)
      = acc.buffer.drop (acc.cursor + header.len) ++ e :=
    List.drop_append_of_le_length (by omega)
  have ht2 : ((acc.buffer ++ e).drop (acc.cursor + header.len)).take header.body_len
      = (acc.buffer.drop (acc.cursor + header.len)).take header.body_len := by
    rw [hd2]
    exact List.take_append_of_le_length (by simp [List.length_drop]; omega)
  have hstep := next_packet_complete dm dv ctx (acc.accumulate e) header
    (by simp [NowPacketAccumulator.accumulate]; omega)
    (by simpa [NowPacketAccumulator.accumulate, ht1] using hok)
    (by simp [NowPacketAccumulator.accumulate]; omega)
  rw [hstep]
  subst hacc1 hr
  simp [NowPacketAccumulator.accumulate, ht2]

/-- Fuel irrelevance for `drainAux`: any fuel exceeding the bytes past
the cursor gives the same run. -/
theorem drainAux_congr :
    ∀ (f : Nat), ∀ (g : Nat) (acc : NowPacketAccumulator),
      acc.buffer.length - acc.cursor < f → acc.buffer.length - acc.cursor < g →
      drainAux dm dv ctx f acc = drainAux dm dv ctx g acc := by
  intro f
  induction f with
  | zero => omega
  | succ f ih =>
    intro g acc hf hg
    match g, hg with
    | g + 1, hg =>
      show drainAux dm dv ctx (f + 1) acc = drainAux dm dv ctx (g + 1) acc
      rw [drainAux, drainAux]
      cases hnp : acc.next_packet dm dv ctx with
      | mk acc1 res =>
        cases res with
        | none => rfl
        | some r =>
          obtain ⟨hbuf, hcur, hle⟩ := next_packet_some_spec dm dv ctx acc acc1 r hnp
          have : acc1.buffer.length - acc1.cursor < f := by rw [hbuf]; omega
          have hgg : acc1.buffer.length - acc1.cursor < g := by rw [hbuf]; omega
          simp only []
          rw [ih g acc1 this hgg]

theorem drain_of_none (acc acc1 : NowPacketAccumulator)
    (h : acc.next_packet dm dv ctx = (acc1, none)) :
    drain dm dv ctx acc = ([], acc) := by
  have heq := next_packet_none_fst dm dv ctx acc acc1 h
  subst heq
  rw [drain, drainAux, h]

theorem drain_of_some (acc acc1 : NowPacketAccumulator)
    (r : Except (PacketError ε) (NowPacket Msg Virt))
    (h : acc.next_packet dm dv ctx = (acc1, some r)) :
    drain dm dv ctx acc
      = (r :: (drain dm dv ctx acc1).1, (drain dm dv ctx acc1).2) := by
  obtain ⟨hbuf, hcur, hle⟩ := next_packet_some_spec dm dv ctx acc acc1 r h
  have hcong : drainAux dm dv ctx acc.buffer.length acc1
      = drainAux dm dv ctx (acc1.buffer.length + 1) acc1 := by
    apply drainAux_congr <;> rw [hbuf] <;> omega
  rcases hd : drainAux dm dv ctx (acc1.buffer.length + 1) acc1 with ⟨outs, accF⟩
  rw [drain, drainAux, h]
  simp only []
  rw [hcong, hd, drain, hd]

/-- Draining, feeding more bytes, and draining again emits the same
results as feeding the bytes first and draining once, and reaches the
same accumulator state. -/
theorem drain_append (e : List Nat) :
    ∀ (n : Nat) (acc : NowPacketAccumulator), acc.buffer.length - acc.cursor = n →
      (drain dm dv ctx acc).1
          ++ (drain dm dv ctx ((drain dm dv ctx acc).2.accumulate e)).1
        = (drain dm dv ctx (acc.accumulate e)).1
      ∧ (drain dm dv ctx ((drain dm dv ctx acc).2.accumulate e)).2
        = (drain dm dv ctx (acc.accumulate e)).2 := by
  intro n
  induction n using Nat.strong_induction_on with
  | _ n ih =>
    intro acc hrem
    cases hnp : acc.next_packet dm dv ctx with
    | mk acc1 res =>
      cases res with
      | none =>
        rw [drain_of_none dm dv ctx acc acc1 hnp]
        simp
      | some r =>
        obtain ⟨hbuf, hcur, hle⟩ := next_packet_some_spec dm dv ctx acc acc1 r hnp
        have hloc := next_packet_accumulate_of_some dm dv ctx acc acc1 e r hnp
        rw [drain_of_some dm dv ctx acc acc1 r hnp,
          drain_of_some dm dv ctx (acc.accumulate e) (acc1.accumulate e) r hloc]
        have hrec := ih (acc1.buffer.length - acc1.cursor) (by rw [hbuf]; omega)
          acc1 rfl
        exact ⟨by simpa using hrec.1, hrec.2⟩

/-- Chunked feeding collects exactly the drain of the concatenation,
generalised over the starting accumulator. -/
theorem processChunksFrom_eq (chunks : List (List Nat)) :
    ∀ (acc : NowPacketAccumulator),
      (drain dm dv ctx acc).1
          ++ processChunksFrom dm dv ctx (drain dm dv ctx acc).2 chunks
        = (drain dm dv ctx (acc.accumulate chunks.flatten)).1 := by
  induction chunks with
  | nil =>
    intro acc
    simp [processChunksFrom, accumulate_nil]
  | cons c cs ih =>
    intro acc
    rw [processChunksFrom]
    simp only [List.flatten_cons]
    have happ := drain_append dm dv ctx (c ++ cs.flatten)
      (acc.buffer.length - acc.cursor) acc rfl
    rw [← happ.1]
    rw [← accumulate_accumulate]
    rw [← ih ((drain dm dv ctx acc).2.accumulate c)]

/-- C6: for every byte sequence and every partition of it into
consecutive chunks, interleaving `accumulate(chunk)` with repeated
`next_packet` calls (drain until `None`) yields exactly the same sequence
of decoded packets and decode errors as accumulating everything at once
and then draining, whatever the message and virtual-channel body decoders
and the channels context. -/
theorem C6_chunked_feeding_equivalence (chunks : List (List Nat)) :
    processChunksFrom dm dv ctx NowPacketAccumulator.new chunks
      = (drain dm dv ctx (NowPacketAccumulator.new.accumulate chunks.flatten)).1 := by
  have hnew : drain dm dv ctx NowPacketAccumulator.new = ([], NowPacketAccumulator.new) :=
    drain_of_none dm dv ctx _ _
      (next_packet_of_short dm dv ctx NowPacketAccumulator.new (by decide))
  have h := processChunksFrom_eq dm dv ctx chunks NowPacketAccumulator.new
  rw [hnew] at h
  simpa using h

/-- C2 (amended): `next_packet` returns `None` whenever fewer than six
bytes — `NowLongHeader::SIZE`, not the four-byte minimum header size —
are available past the cursor, even if those bytes already form a
complete short packet; once at least six bytes are available the header
always decodes, and whenever the complete packet is present the body is
decoded, the cursor advances by the packet length, and `Some` is
returned. -/
theorem C2_next_packet_amended (acc : NowPacketAccumulator) :
    (acc.buffer.length < acc.cursor + 6 → acc.next_packet dm dv ctx = (acc, none))
    ∧ (∀ header, acc.cursor + 6 ≤ acc.buffer.length →
        NowHeader.read_from ((acc.buffer.drop acc.cursor).take 6) = .ok header →
        acc.cursor + (header.body_len + header.len) ≤ acc.buffer.length →
        acc.next_packet dm dv ctx
          = ({ acc with cursor := acc.cursor + (header.body_len + header.len) },
             some (NowPacket.decode_from dm dv header
               ((acc.buffer.drop (acc.cursor + header.len)).take header.body_len) ctx)))
    ∧ (acc.cursor + 6 ≤ acc.buffer.length →
        ∃ header, NowHeader.read_from ((acc.buffer.drop acc.cursor).take 6) = .ok header) := by
  refine ⟨fun h => next_packet_of_short dm dv ctx acc h,
    fun header h6 hh hc => next_packet_complete dm dv ctx acc header h6 hh hc,
    fun h6 => ?_⟩
  apply NowHeader.read_from_ok_of_length
  simp [List.length_take, List.length_drop]
  omega

/-- C10: the cursor never exceeds the buffer length: it holds for a fresh
accumulator and is preserved by `accumulate`, `next_packet` and
`purge_old_packets`. -/
theorem C10_cursor_le_buffer_invariant :
    NowPacketAccumulator.new.cursor ≤ NowPacketAccumulator.new.buffer.length
    ∧ (∀ (acc : NowPacketAccumulator) (bytes : List Nat),
        acc.cursor ≤ acc.buffer.length →
        (acc.accumulate bytes).cursor ≤ (acc.accumulate bytes).buffer.length)
    ∧ (∀ acc : NowPacketAccumulator, acc.cursor ≤ acc.buffer.length →
        (acc.next_packet dm dv ctx).1.cursor ≤ (acc.next_packet dm dv ctx).1.buffer.length)
    ∧ (∀ acc : NowPacketAccumulator, acc.cursor ≤ acc.buffer.length →
        acc.purge_old_packets.cursor ≤ acc.purge_old_packets.buffer.length) := by
  refine ⟨by decide, ?_, ?_, ?_⟩
  · intro acc bytes h
    simp [NowPacketAccumulator.accumulate]
    omega
  · intro acc h
    cases hnp : acc.next_packet dm dv ctx with
    | mk acc1 res =>
      cases res with
      | none =>
        have := next_packet_none_fst dm dv ctx acc acc1 hnp
        subst this
        simpa using h
      | some r =>
        obtain ⟨hbuf, _, hle⟩ := next_packet_some_spec dm dv ctx acc acc1 r hnp
        simp [hbuf]
        omega
  · intro acc h
    simp [NowPacketAccumulator.purge_old_packets]

end AccumulatorLemmas

/-- Counterexample for C2 as stated: the four bytes below form a complete
short-header packet (the header decodes and reports packet length 4,
which equals the accumulated byte count), yet `next_packet` returns
`None`, because the source demands six bytes before looking at the
header. -/
theorem C2_next_packet_counterexample :
    NowHeader.read_from [0x00, 0x00, 0x01, 0x80]
      = .ok (.short { body_len := 0, body_type := .message .handshake, flags := 0x80 })
    ∧ (NowHeader.read_from [0x00, 0x00, 0x01, 0x80]).map NowHeader.packet_len = .ok 4
    ∧ (NowPacketAccumulator.new.accumulate [0x00, 0x00, 0x01, 0x80]).buffer.length = 4
    ∧ NowPacketAccumulator.next_packet rawMessageDecoder rawVirtDecoder
        (NowPacketAccumulator.new.accumulate [0x00, 0x00, 0x01, 0x80]) []
        = (NowPacketAccumulator.new.accumulate [0x00, 0x00, 0x01, 0x80], none) := by
  refine ⟨rfl, rfl, rfl, ?_⟩
  exact next_packet_of_short rawMessageDecoder rawVirtDecoder [] _ (by decide)

/-- Witness for the amended C2 at concrete inputs: one byte past the
cursor gives `None`; a six-byte buffer holding a complete short packet
with a two-byte body is decoded with the cursor advanced to 6. -/
theorem C2_next_packet_amended_witness :
    NowPacketAccumulator.next_packet rawMessageDecoder rawVirtDecoder
        { buffer := [0x34], cursor := 0 } [] = ({ buffer := [0x34], cursor := 0 }, none)
    ∧ NowPacketAccumulator.next_packet rawMessageDecoder rawVirtDecoder
        { buffer := [0x02, 0x00, 0x01, 0x80, 0x09, 0x09], cursor := 0 } []
      = ({ buffer := [0x02, 0x00, 0x01, 0x80, 0x09, 0x09], cursor := 6 },
         some (.ok { header := .short { body_len := 2, body_type := .message .handshake,
                                        flags := 0x80 },
                     body := .message [0x09, 0x09] })) := by
  constructor
  · exact (C2_next_packet_amended rawMessageDecoder rawVirtDecoder []
      { buffer := [0x34], cursor := 0 }).1 (by decide)
  · have h := (C2_next_packet_amended rawMessageDecoder rawVirtDecoder []
      { buffer := [0x02, 0x00, 0x01, 0x80, 0x09, 0x09], cursor := 0 }).2.1
      (.short { body_len := 2, body_type := .message .handshake, flags := 0x80 })
      (by decide) (by decide) (by decide)
    exact h

/-- Witness for C10 at concrete accumulators. -/
theorem C10_cursor_le_buffer_invariant_witness :
    (({ buffer := [1, 2, 3], cursor := 2 } : NowPacketAccumulator).accumulate [4]).cursor
      ≤ (({ buffer := [1, 2, 3], cursor := 2 } : NowPacketAccumulator).accumulate [4]).buffer.length
    ∧ (NowPacketAccumulator.next_packet rawMessageDecoder rawVirtDecoder
        { buffer := [0x02, 0x00, 0x01, 0x80, 0x09, 0x09], cursor := 0 } []).1.cursor
      ≤ (NowPacketAccumulator.next_packet rawMessageDecoder rawVirtDecoder
        { buffer := [0x02, 0x00, 0x01, 0x80, 0x09, 0x09], cursor := 0 } []).1.buffer.length
    ∧ ({ buffer := [1, 2, 3], cursor := 2 } : NowPacketAccumulator).purge_old_packets.cursor
      ≤ ({ buffer := [1, 2, 3], cursor := 2 } : NowPacketAccumulator).purge_old_packets.buffer.length :=
  ⟨(C10_cursor_le_buffer_invariant rawMessageDecoder rawVirtDecoder []).2.1
      { buffer := [1, 2, 3], cursor := 2 } [4] (by decide),
   (C10_cursor_le_buffer_invariant rawMessageDecoder rawVirtDecoder []).2.2.1
      { buffer := [0x02, 0x00, 0x01, 0x80, 0x09, 0x09], cursor := 0 } (by decide),
   (C10_cursor_le_buffer_invariant rawMessageDecoder rawVirtDecoder []).2.2.2
      { buffer := [1, 2, 3], cursor := 2 } (by decide)⟩

/-! ### Channel-name order and ordered-map lemmas -/

theorem ChannelName.lt_irrefl_bool (a : ChannelName) : ChannelName.lt a a = false := by
  cases a with
  | unknown s => simp [ChannelName.lt]
  | _ => decide

theorem ChannelName.lt_asymm_bool (a b : ChannelName)
    (h : ChannelName.lt a b = true) : ChannelName.lt b a = false := by
  cases a <;> cases b <;>
    first
    | rfl
    | exact Bool.noConfusion h
    | (rename_i s1 s2
       simp only [ChannelName.lt, decide_eq_true_eq] at h
       simp only [ChannelName.lt, decide_eq_false_iff_not]
       exact asymm h)

theorem ChannelName.lt_connex_bool (a b : ChannelName) (hne : a ≠ b)
    (h : ChannelName.lt a b = false) : ChannelName.lt b a = true := by
  cases a <;> cases b <;>
    first
    | rfl
    | exact absurd rfl hne
    | exact Bool.noConfusion h
    | (rename_i s1 s2
       simp only [ChannelName.lt, decide_eq_false_iff_not] at h
       simp only [ChannelName.lt, decide_eq_true_eq]
       have hs : s1 ≠ s2 := fun he => hne (by rw [he])
       rcases lt_trichotomy s1 s2 with h3 | h3 | h3
       · exact absurd h3 h
       · exact absurd h3 hs
       · exact h3)

theorem ChannelName.lt_trans_bool (a b c : ChannelName)
    (h1 : ChannelName.lt a b = true) (h2 : ChannelName.lt b c = true) :
    ChannelName.lt a c = true := by
  cases a <;> cases b <;> cases c <;>
    first
    | rfl
    | exact Bool.noConfusion h1
    | exact Bool.noConfusion h2
    | (rename_i s1 s2 s3
       simp only [ChannelName.lt, decide_eq_true_eq] at h1 h2 ⊢
       exact lt_trans h1 h2)

theorem btreeInsert_mem {κ α : Type} [DecidableEq κ] (lt : κ → κ → Bool)
    (l : List (κ × α)) (k : κ) (v : α) :
    ∀ x ∈ btreeInsert lt l k v, x = (k, v) ∨ x ∈ l := by
  induction l with
  | nil => simp [btreeInsert]
  | cons hd t ih =>
    obtain ⟨k0, v0⟩ := hd
    intro x hx
    rw [btreeInsert] at hx
    split at hx
    · rcases List.mem_cons.mp hx with hx | hx
      · exact Or.inl hx
      · exact Or.inr hx
    · split at hx
      · rcases List.mem_cons.mp hx with hx | hx
        · exact Or.inl hx
        · exact Or.inr (List.mem_cons_of_mem _ hx)
      · rcases List.mem_cons.mp hx with hx | hx
        · exact Or.inr (by simp [hx])
        · rcases ih x hx with h | h
          · exact Or.inl h
          · exact Or.inr (List.mem_cons_of_mem _ h)

theorem btreeInsert_pairwise {κ α : Type} [DecidableEq κ] (lt : κ → κ → Bool)
    (htrans : ∀ a b c, lt a b = true → lt b c = true → lt a c = true)
    (hconn : ∀ a b, a ≠ b → lt a b = false → lt b a = true)
    (l : List (κ × α)) (k : κ) (v : α) :
    l.Pairwise (fun x y => lt x.1 y.1 = true) →
    (btreeInsert lt l k v).Pairwise (fun x y => lt x.1 y.1 = true) := by
  induction l with
  | nil =>
    intro _
    simp [btreeInsert]
  | cons hd t ih =>
    obtain ⟨k0, v0⟩ := hd
    intro hl
    rcases List.pairwise_cons.mp hl with ⟨hhd, ht⟩
    rw [btreeInsert]
    split
    · rename_i h1
      refine List.pairwise_cons.mpr ⟨?_, hl⟩
      intro y hy
      rcases List.mem_cons.mp hy with hy | hy
      · rw [hy]
        simpa using h1
      · exact htrans _ _ _ (by simpa using h1) (hhd y hy)
    · split
      · rename_i h1 h2
        subst h2
        exact List.pairwise_cons.mpr ⟨fun y hy => hhd y hy, ht⟩
      · rename_i h1 h2
        refine List.pairwise_cons.mpr ⟨?_, ih ht⟩
        intro y hy
        rcases btreeInsert_mem lt t k v y hy with h | h
        · rw [h]
          exact hconn k k0 h2 (by simpa using h1)
        · exact hhd y h

/-- The first list element accepted by `find?` precedes, in the pairwise
order of a sorted list, every other accepted element. -/
theorem find_first_minimal {α : Type} (p : α → Bool) (R : α → α → Prop) :
    ∀ (l : List α), l.Pairwise R → ∀ a, l.find? p = some a →
      ∀ b ∈ l, p b = true → b = a ∨ R a b := by
  intro l
  induction l with
  | nil => simp
  | cons x t ih =>
    intro hp a hfind b hb hpb
    rcases List.pairwise_cons.mp hp with ⟨hx, ht⟩
    by_cases hpx : p x = true
    · rw [List.find?_cons_of_pos _ hpx] at hfind
      have hxa : x = a := Option.some.inj hfind
      rcases List.mem_cons.mp hb with hb | hb
      · exact Or.inl (hb.trans hxa)
      · exact Or.inr (hxa ▸ hx b hb)
    · rw [List.find?_cons_of_neg _ hpx] at hfind
      rcases List.mem_cons.mp hb with hb | hb
      · exact absurd (hb ▸ hpb) hpx
      · exact ih ht a hfind b hb hpb

/-- Sortedness of a manager built by repeated `add_sm`. -/
theorem foldl_add_sm_sorted (ms : List VirtualChannelSM) :
    ∀ (m : ChannelsManager),
      m.state_machines.Pairwise (fun x y => ChannelName.lt x.1 y.1 = true) →
      (ms.foldl ChannelsManager.add_sm m).state_machines.Pairwise
        (fun x y => ChannelName.lt x.1 y.1 = true) := by
  induction ms with
  | nil => exact fun m hm => hm
  | cons sm rest ih =>
    intro m hm
    exact ih (m.add_sm sm)
      (btreeInsert_pairwise ChannelName.lt ChannelName.lt_trans_bool
        (fun a b hne h => ChannelName.lt_connex_bool a b hne h)
        m.state_machines sm.get_channel_name sm hm)

/-- C9 (amended): the manager scans its machines in ascending
channel-name order (the `BTreeMap` key order), not in insertion order:
for any sequence of `add_sm` insertions the scanned list is key-sorted,
and `update_without_virt_msg` dispatches to the first machine in that
order whose `waiting_for_packet()` is false — a machine that is
name-minimal among the ready ones, whatever the insertion order was. -/
theorem C9_scan_order_amended (ms : List VirtualChannelSM) :
    ((ms.foldl ChannelsManager.add_sm ChannelsManager.new).state_machines.Pairwise
        (fun x y => ChannelName.lt x.1 y.1 = true))
    ∧ (∀ p, (ms.foldl ChannelsManager.add_sm ChannelsManager.new).state_machines.find?
          (fun x => !x.2.waiting_for_packet) = some p →
        (ms.foldl ChannelsManager.add_sm ChannelsManager.new).update_without_virt_msg
          = (p.2.without_events,
             p.2.without_responses.map (fun r => (p.2.get_channel_name, r)))
        ∧ ∀ q ∈ (ms.foldl ChannelsManager.add_sm ChannelsManager.new).state_machines,
            q.2.waiting_for_packet = false → ChannelName.lt q.1 p.1 = false) := by
  have hsorted := foldl_add_sm_sorted ms ChannelsManager.new (by simp [ChannelsManager.new])
  refine ⟨hsorted, fun p hfind => ⟨?_, ?_⟩⟩
  · rw [ChannelsManager.update_without_virt_msg, hfind]
  · intro q hq hqw
    rcases find_first_minimal (fun x => !x.2.waiting_for_packet)
        (fun x y => ChannelName.lt x.1 y.1 = true) _ hsorted p hfind q hq
        (by simp [hqw]) with h | h
    · rw [h]
      exact ChannelName.lt_irrefl_bool p.1
    · exact ChannelName.lt_asymm_bool p.1 q.1 h

/-- Witness for the amended C9: inserting the tunnel machine first and
the clipboard machine second still dispatches to the clipboard machine
(both ready), and the tunnel machine does not precede it. -/
theorem C9_scan_order_amended_witness :
    ([tunnelSM, clipboardSM].foldl ChannelsManager.add_sm
        ChannelsManager.new).update_without_virt_msg
      = ([], [(ChannelName.clipboard, 1)])
    ∧ ChannelName.lt ChannelName.tunnel ChannelName.clipboard = false := by
  have h := (C9_scan_order_amended [tunnelSM, clipboardSM]).2
    (ChannelName.clipboard, clipboardSM) (by decide)
  constructor
  · exact h.1
  · exact h.2 (ChannelName.tunnel, tunnelSM) (by decide) (by decide)

/-- Counterexample for C9 as stated: the claim promises that, for some
insertion order differing from the name order, the machine inserted
first is scanned (and, being ready, dispatched) first.  Inserting the
tunnel machine before the clipboard machine — both ready — dispatches to
the clipboard machine (name order), not to the first-inserted tunnel
machine. -/
theorem C9_scan_order_counterexample :
    ((ChannelsManager.new.add_sm tunnelSM).add_sm clipboardSM).update_without_virt_msg
      = ([], [(ChannelName.clipboard, 1)])
    ∧ tunnelSM.waiting_for_packet = false
    ∧ tunnelSM.without_responses.map (fun r => (tunnelSM.get_channel_name, r))
      ≠ [(ChannelName.clipboard, 1)] := by
  refine ⟨rfl, rfl, by decide⟩

/-! ### Sharee fatal handling -/

theorem h_check_for_fatal_final {σ : Type} (s : Sharee σ) (events : List SMEvent)
    (hf : (s.h_check_for_fatal events).2.any SMEvent.isFatal = true) :
    (s.h_check_for_fatal events).1.state = ShareeState.final := by
  by_cases hev : events.any SMEvent.isFatal = true
  · simp [Sharee.h_check_for_fatal, hev, Sharee.h_transition_state]
  · rw [Sharee.h_check_for_fatal, if_neg hev] at hf
    exact absurd hf hev

/-- C5 (amended): in the Connection phase (and trivially in the Final
phase) a `Fatal` event among the events produced by `update_without_body`
or `update_with_body` forces the sharee to the Final state; the source
runs `h_check_for_fatal` only in the Connection branches, so the
guarantee does not extend to the Active phase. -/
theorem C5_fatal_forces_final_amended {σ : Type} (iface : ConnectionSMIface σ)
    (s : Sharee σ) (hstate : s.state ≠ ShareeState.active) :
    ((Sharee.update_without_body iface s).2.any SMEvent.isFatal = true →
      (Sharee.update_without_body iface s).1.state = ShareeState.final)
    ∧ ∀ body, ((Sharee.update_with_body iface s body).2.any SMEvent.isFatal = true →
      (Sharee.update_with_body iface s body).1.state = ShareeState.final) := by
  obtain ⟨st, cs, cm, da, cx⟩ := s
  cases st with
  | active => exact absurd rfl hstate
  | connection =>
    constructor
    · intro hf
      rw [Sharee.update_without_body] at hf ⊢
      exact h_check_for_fatal_final _ _ hf
    · intro body hf
      cases body with
      | message msg =>
        cases msg <;>
          rw [Sharee.update_with_body] at hf ⊢ <;>
          first
          | exact h_check_for_fatal_final _ _ hf
          | exact fun h => NowMessage.noConfusion h
      | virtualChannel chan_msg =>
        rw [Sharee.update_with_body] at hf
        simp [List.any, SMEvent.isFatal] at hf
  | final =>
    constructor
    · intro hf
      rw [Sharee.update_without_body] at hf
      simp [List.any, SMEvent.isFatal] at hf
    · intro body hf
      cases body with
      | message msg =>
        cases msg <;>
          rw [Sharee.update_with_body] at hf <;>
          simp [List.any, SMEvent.isFatal] at hf
      | virtualChannel chan_msg =>
        rw [Sharee.update_with_body] at hf
        simp [List.any, SMEvent.isFatal] at hf

/-- Witness for the amended C5: a connection-phase sharee whose
connection sequence pushes `Fatal` ends the update in the Final state. -/
theorem C5_fatal_forces_final_amended_witness :
    (Sharee.update_without_body fatalConnectionSM connectionSharee).1.state
      = ShareeState.final :=
  (C5_fatal_forces_final_amended fatalConnectionSM connectionSharee
    (by decide)).1 (by decide)

/-- Counterexample for C5 as stated: in the Active phase, a channel state
machine pushing a `Fatal` event leaves the sharee in the Active state
(the event list of the update contains `Fatal`, yet the state after the
call is not Final). -/
theorem C5_fatal_forces_final_counterexample :
    (Sharee.update_without_body idleConnectionSM activeShareeWithFatalChannel).2.any
        SMEvent.isFatal = true
    ∧ (Sharee.update_without_body idleConnectionSM activeShareeWithFatalChannel).1.state
      = ShareeState.active := by
  refine ⟨?_, rfl⟩
  rfl

end WaykNow
